import Mathlib

/-!
Verification of the usable-kanban browser client.

The development shallowly embeds the client's core logic:
the content codec that serializes task state into YAML-style frontmatter,
the sort-key allocator and drag-and-drop decision logic of the board
(`js/kanban.js`), the chat tool bridge (`handleToolCall` and the
postMessage listener), and the OAuth PKCE helper (`handleCallback`,
`getUserInfo`).

Strings are modelled by Lean `String` (a wrapper around `List Char`);
the character-level functions mirror the JavaScript string operations
used by the source.  All definitions are executable so that concrete
scenarios evaluate by `decide` / `rfl`.
-/

namespace Kanban

/-! ## Character-list utilities

Executable helpers mirroring the JavaScript string primitives used by the
source: prefix test, first-occurrence split (the lazy regex match in
`parseContent`), line splitting, and character-class checks. -/

/-- Boolean prefix test on character lists (JS `String.startsWith`). -/
def startsWithL : List Char → List Char → Bool
  | [], _ => true
  | _ :: _, [] => false
  | a :: as, b :: bs => a == b && startsWithL as bs

/-- Split a character list at the first occurrence of `pat`, returning the
part before the occurrence and the part after it.  Mirrors the lazy
(`*?`) frontmatter regex of `parseContent`, which matches the earliest
closing delimiter. -/
def splitFirst (pat : List Char) : List Char → Option (List Char × List Char)
  | [] => none
  | c :: cs =>
    if startsWithL pat (c :: cs) then some ([], (c :: cs).drop pat.length)
    else
      match splitFirst pat cs with
      | some (a, b) => some (c :: a, b)
      | none => none

/-- Split a character list into lines at newline characters
(JS `String.split('\n')`). -/
def splitLines : List Char → List (List Char)
  | [] => [[]]
  | c :: cs =>
    if c = '\n' then [] :: splitLines cs
    else
      match splitLines cs with
      | l :: ls => (c :: l) :: ls
      | [] => [[c]]

/-- Split a character list at every occurrence of a separator character
(JS `String.split('.')` for JWT segments). -/
def splitOnChar (sep : Char) : List Char → List (List Char)
  | [] => [[]]
  | c :: cs =>
    if c = sep then [] :: splitOnChar sep cs
    else
      match splitOnChar sep cs with
      | l :: ls => (c :: l) :: ls
      | [] => [[c]]

/-- No newline character occurs in the list. -/
def noNL (l : List Char) : Bool := l.all (fun c => c != '\n')

theorem splitFirst_nil (pat : List Char) : splitFirst pat [] = none := rfl

theorem splitFirst_cons (pat : List Char) (c : Char) (cs : List Char) :
    splitFirst pat (c :: cs) =
      if startsWithL pat (c :: cs) = true then some ([], (c :: cs).drop pat.length)
      else
        match splitFirst pat cs with
        | some (a, b) => some (c :: a, b)
        | none => none := rfl

theorem startsWithL_self_append (l t : List Char) : startsWithL l (l ++ t) = true := by
  induction l with
  | nil => rfl
  | cons a as ih => simp [startsWithL, ih]

theorem startsWithL_false_of_head_ne {a b : Char} (as bs : List Char) (h : a ≠ b) :
    startsWithL (a :: as) (b :: bs) = false := by
  simp [startsWithL]
  intro h2
  exact absurd h2 h

theorem splitFirst_of_safe (pat b : List Char) (hp : pat ≠ []) :
    ∀ a : List Char,
      (∀ t, t <:+ a → t ≠ [] → startsWithL pat (t ++ pat ++ b) = false) →
      splitFirst pat (a ++ pat ++ b) = some (a, b) := by
  intro a
  induction a with
  | nil =>
    intro _
    obtain ⟨p, ps, rfl⟩ : ∃ p ps, pat = p :: ps := by
      cases pat with
      | nil => exact absurd rfl hp
      | cons p ps => exact ⟨p, ps, rfl⟩
    show splitFirst (p :: ps) ((p :: ps) ++ b) = some ([], b)
    rw [show (p :: ps) ++ b = p :: (ps ++ b) from rfl]
    rw [splitFirst_cons]
    rw [show p :: (ps ++ b) = (p :: ps) ++ b from rfl]
    rw [startsWithL_self_append (p :: ps) b]
    simp [List.drop_left]
  | cons c a' ih =>
    intro h
    have hfalse : startsWithL pat (c :: (a' ++ pat ++ b)) = false := by
      have := h (c :: a') (List.suffix_refl _) (by simp)
      simpa [List.append_assoc] using this
    have hrest : splitFirst pat (a' ++ pat ++ b) = some (a', b) := by
      apply ih
      intro t ht hne
      exact h t (ht.trans (List.suffix_cons c a')) hne
    show splitFirst pat (c :: (a' ++ pat ++ b)) = some (c :: a', b)
    rw [splitFirst_cons, hfalse, if_neg (by simp), hrest]

/-! ## Decimal integer rendering and parsing

The codec stores the sort key as its decimal representation inside the
frontmatter.  `natChars`/`intChars` render an integer; `parseNatL` /
`parseIntL` read it back.  The round-trip lemma `parseIntL_intChars`
backs the sort-key component of the codec round trip. -/

/-- The decimal digit character for `n % 10`. -/
def digitChar (n : ℕ) : Char :=
  if n = 0 then '0'
  else if n = 1 then '1'
  else if n = 2 then '2'
  else if n = 3 then '3'
  else if n = 4 then '4'
  else if n = 5 then '5'
  else if n = 6 then '6'
  else if n = 7 then '7'
  else if n = 8 then '8'
  else '9'

/-- Fuel-driven decimal rendering: structurally recursive so that the
kernel can evaluate it on closed inputs. -/
def natCharsAux : ℕ → ℕ → List Char
  | 0, _ => []
  | fuel + 1, n =>
    if n < 10 then [digitChar n]
    else natCharsAux fuel (n / 10) ++ [digitChar (n % 10)]

/-- Decimal rendering of a natural number. -/
def natChars (n : ℕ) : List Char := natCharsAux (n + 1) n

/-- Decimal rendering of an integer (with a leading minus sign when
negative), as JS template interpolation `${sort}` produces. -/
def intChars (k : ℤ) : List Char :=
  if k < 0 then '-' :: natChars (-k).toNat else natChars k.toNat

/-- The numeric value of a decimal digit character, if it is one. -/
def digitVal (c : Char) : Option ℕ :=
  if 48 ≤ c.toNat ∧ c.toNat ≤ 57 then some (c.toNat - 48) else none

/-- Accumulating decimal parser for digit lists. -/
def parseNatL : List Char → ℕ → Option ℕ
  | [], acc => some acc
  | c :: cs, acc =>
    match digitVal c with
    | some d => parseNatL cs (10 * acc + d)
    | none => none

/-- Decimal integer parser (optional leading minus sign). -/
def parseIntL : List Char → Option ℤ
  | [] => none
  | c :: cs =>
    if c = '-' then
      if cs = [] then none
      else (parseNatL cs 0).map (fun n => -(n : ℤ))
    else (parseNatL (c :: cs) 0).map (fun n => (n : ℤ))

theorem digitVal_digitChar (n : ℕ) (h : n < 10) : digitVal (digitChar n) = some n := by
  interval_cases n <;> decide

theorem digitChar_ne_nl (n : ℕ) : digitChar n ≠ '\n' := by
  unfold digitChar
  split_ifs <;> decide

theorem digitChar_ne_minus (n : ℕ) : digitChar n ≠ '-' := by
  unfold digitChar
  split_ifs <;> decide

theorem natCharsAux_irrel :
    ∀ n f₁ f₂, n < f₁ → n < f₂ → natCharsAux f₁ n = natCharsAux f₂ n := by
  intro n
  induction n using Nat.strong_induction_on with
  | _ n ih =>
    intro f₁ f₂ h₁ h₂
    obtain ⟨g₁, rfl⟩ : ∃ g, f₁ = g + 1 := ⟨f₁ - 1, by omega⟩
    obtain ⟨g₂, rfl⟩ : ∃ g, f₂ = g + 1 := ⟨f₂ - 1, by omega⟩
    show natCharsAux (g₁ + 1) n = natCharsAux (g₂ + 1) n
    rw [natCharsAux, natCharsAux]
    by_cases h : n < 10
    · rw [if_pos h, if_pos h]
    · rw [if_neg h, if_neg h]
      have hlt : n / 10 < n := Nat.div_lt_self (by omega) (by omega)
      rw [ih (n / 10) hlt g₁ g₂ (by omega) (by omega)]

theorem natChars_lt {n : ℕ} (h : n < 10) : natChars n = [digitChar n] := by
  rw [natChars, natCharsAux, if_pos h]

theorem natChars_ge {n : ℕ} (h : ¬n < 10) :
    natChars n = natChars (n / 10) ++ [digitChar (n % 10)] := by
  rw [natChars, natCharsAux, if_neg h]
  rw [natCharsAux_irrel (n / 10) n (n / 10 + 1) (by omega) (by omega)]
  rfl

theorem parseNatL_append (xs ys : List Char) (acc : ℕ) :
    parseNatL (xs ++ ys) acc =
      match parseNatL xs acc with
      | some a => parseNatL ys a
      | none => none := by
  induction xs generalizing acc with
  | nil => rfl
  | cons c cs ih =>
    show parseNatL (c :: (cs ++ ys)) acc = _
    rw [parseNatL]
    cases hd : digitVal c with
    | none => simp [parseNatL, hd]
    | some d => simp [parseNatL, hd, ih]

theorem parseNatL_natChars (n : ℕ) :
    ∀ acc, parseNatL (natChars n) acc = some (acc * 10 ^ (natChars n).length + n) := by
  induction n using Nat.strong_induction_on with
  | _ n ih =>
    intro acc
    by_cases h : n < 10
    · rw [natChars_lt h]
      show parseNatL [digitChar n] acc = _
      rw [parseNatL, digitVal_digitChar n h]
      show some (10 * acc + n) = _
      simp
      ring
    · rw [natChars_ge h]
      rw [parseNatL_append]
      have hlt : n / 10 < n := Nat.div_lt_self (by omega) (by omega)
      rw [ih (n / 10) hlt acc]
      show parseNatL [digitChar (n % 10)] _ = _
      rw [parseNatL, digitVal_digitChar (n % 10) (Nat.mod_lt n (by omega))]
      show some (10 * (acc * 10 ^ (natChars (n / 10)).length + n / 10) + n % 10) = _
      simp [List.length_append, pow_succ]
      rw [Nat.mul_add, Nat.add_assoc]
      congr 1
      · ring
      · omega

theorem noNL_natChars (n : ℕ) : noNL (natChars n) = true := by
  induction n using Nat.strong_induction_on with
  | _ n ih =>
    by_cases h : n < 10
    · rw [natChars_lt h]
      simp [noNL, digitChar_ne_nl]
    · rw [natChars_ge h]
      have hlt : n / 10 < n := Nat.div_lt_self (by omega) (by omega)
      have hrec := ih (n / 10) hlt
      simp only [noNL, List.all_append, List.all_cons, List.all_nil, Bool.and_true,
        Bool.and_eq_true] at hrec ⊢
      refine ⟨hrec, ?_⟩
      simp [digitChar_ne_nl]

theorem natChars_ne_nil (n : ℕ) : natChars n ≠ [] := by
  by_cases h : n < 10
  · rw [natChars_lt h]; simp
  · rw [natChars_ge h]; simp

theorem noNL_intChars (k : ℤ) : noNL (intChars k) = true := by
  rw [intChars]
  by_cases h : k < 0
  · rw [if_pos h]
    have hrec := noNL_natChars (-k).toNat
    simp only [noNL, List.all_cons, Bool.and_eq_true] at hrec ⊢
    exact ⟨by decide, hrec⟩
  · rw [if_neg h]
    exact noNL_natChars _

theorem intChars_ne_nil (k : ℤ) : intChars k ≠ [] := by
  rw [intChars]
  by_cases h : k < 0
  · rw [if_pos h]; simp
  · rw [if_neg h]; exact natChars_ne_nil _

theorem natChars_head_digit (n : ℕ) :
    ∃ m cs, m < 10 ∧ natChars n = digitChar m :: cs := by
  by_cases h : n < 10
  · exact ⟨n, [], h, natChars_lt h⟩
  · obtain ⟨m, cs, hm, heq⟩ := natChars_head_digit (n / 10)
    refine ⟨m, cs ++ [digitChar (n % 10)], hm, ?_⟩
    rw [natChars_ge h, heq]
    rfl
termination_by n
decreasing_by exact Nat.div_lt_self (by omega) (by omega)

theorem parseIntL_natChars (n : ℕ) : parseIntL (natChars n) = some (n : ℤ) := by
  obtain ⟨m, cs, hm, heq⟩ := natChars_head_digit n
  rw [heq, parseIntL]
  rw [if_neg (digitChar_ne_minus m)]
  rw [← heq, parseNatL_natChars n 0]
  simp

theorem parseIntL_intChars (k : ℤ) : parseIntL (intChars k) = some k := by
  rw [intChars]
  by_cases h : k < 0
  · rw [if_pos h]
    rw [parseIntL]
    rw [if_pos rfl, if_neg (natChars_ne_nil _)]
    rw [parseNatL_natChars _ 0]
    simp
    omega
  · rw [if_neg h]
    rw [parseIntL_natChars]
    congr 1
    omega

/-! ## Content codec

The production `kanban.js` (the revision shipped in this repository)
calls a sort-aware `UsableAPI.buildContent` / `UsableAPI.parseContent`
(it reads `parsed.sort`, passes `sort:` on update, and the README
documents the frontmatter as `status` / `priority` / `sort`).  That
revision of `api.js` is not among the repository files available here;
only an earlier revision without the `sort` field is.  The codec below
is therefore modelled from the specification (see the doc comments of
`buildContent` and `parseContent`). -/

/-- The opening frontmatter delimiter together with its line break. -/
def openMark : List Char := ['-', '-', '-', '\n']

/-- The closing frontmatter delimiter on a dedicated line: the line
break ending the last header line, the three dashes, and the line break
ending the delimiter line. -/
def closeMark : List Char := ['\n', '-', '-', '-', '\n']

def statusKeyL : List Char := "status: ".data

def priorityKeyL : List Char := "priority: ".data

def sortKeyL : List Char := "sort: ".data

/-- Decoded task state (spec: `ParsedTask`).  `status` and `priority`
are kept as raw strings exactly as extracted from the header; the sync
engine treats unrecognized values downstream. -/
structure ParsedTask where
  status : String
  priority : String
  sort : ℤ
  body : String
deriving DecidableEq, Repr

/-- The frontmatter block between the delimiters, one `key: value` line
per field in fixed order. -/
def headerL (status priority : List Char) (sort : ℤ) : List Char :=
  statusKeyL ++ status ++
    '\n' :: (priorityKeyL ++ priority ++
      '\n' :: (sortKeyL ++ intChars sort))

/-- Character-level encoder: delimiter line, header lines, delimiter
line, blank line, body. -/
def buildContentL (status priority : List Char) (sort : ℤ) (body : List Char) : List Char :=
  openMark ++ (headerL status priority sort ++ (closeMark ++ '\n' :: body))

/-- Modelled from the spec: the sort-aware `UsableAPI.buildContent` of
the shipped client is not among the available repository files (only an
earlier revision without the `sort` field is; its callers in `kanban.js`
pass and read `sort`).  Per spec 4.1, encoding writes a fixed-order
structured header delimited by `---` lines, followed by a blank line and
the body. -/
def buildContent (status priority : String) (sort : ℤ) (body : String) : String :=
  ⟨buildContentL status.data priority.data sort body.data⟩

/-- Extract the value of the first line starting with `key`, if any. -/
def fieldVal (key : List Char) : List (List Char) → Option (List Char)
  | [] => none
  | l :: ls => if startsWithL key l then some (l.drop key.length) else fieldVal key ls

/-- Field extraction with a default for a missing or empty value
(mirrors the `(.+)` capture of the JS field regexes, which fails on an
empty value). -/
def getField (key : List Char) (lines : List (List Char)) (dflt : List Char) : List Char :=
  match fieldVal key lines with
  | some v => if v = [] then dflt else v
  | none => dflt

/-- Parse the header block into `(status, priority, sort)` with the
spec-mandated defaults `todo` / `medium` / `0`. -/
def parseHeaderL (header : List Char) : List Char × List Char × ℤ :=
  let lines := splitLines header
  let status := getField statusKeyL lines "todo".data
  let priority := getField priorityKeyL lines "medium".data
  let sort : ℤ :=
    match fieldVal sortKeyL lines with
    | some v => (parseIntL v).getD 0
    | none => 0
  (status, priority, sort)

/-- Drop the single blank line separating the closing delimiter from the
body, when present. -/
def stripLead (rest : List Char) : List Char :=
  if rest.head? = some '\n' then rest.tail else rest

/-- Modelled from the spec: the sort-aware `UsableAPI.parseContent` of
the shipped client is not among the available repository files (only an
earlier revision without the `sort` field is).  Per spec 4.1 the decoder
recognizes the header only when delimited by the literal marker pair on
dedicated lines, never fails, and otherwise returns the entire input as
`body` with default status/priority/sort. -/
def parseContentL (cs : List Char) : ParsedTask :=
  if startsWithL openMark cs then
    match splitFirst closeMark (cs.drop 4) with
    | some (header, rest) =>
      let f := parseHeaderL header
      ⟨⟨f.1⟩, ⟨f.2.1⟩, f.2.2, ⟨stripLead rest⟩⟩
    | none => ⟨"todo", "medium", 0, ⟨cs⟩⟩
  else ⟨"todo", "medium", 0, ⟨cs⟩⟩

/-- String-level decoder. -/
def parseContent (s : String) : ParsedTask := parseContentL s.data

/-- The JS entry point receives the fragment content as a nullable
value; `parseContent` first checks `if (!content)` and returns all
defaults.  (For the empty string the two branches agree.) -/
def parseContentOpt : Option String → ParsedTask
  | none => ⟨"todo", "medium", 0, ""⟩
  | some s => parseContent s

/-- The input is recognized as frontmatter-delimited: it starts with the
opening marker line and contains the closing marker line. -/
def hasFrontmatter (s : String) : Bool :=
  startsWithL openMark s.data && (splitFirst closeMark (s.data.drop 4)).isSome

/-! ## Codec round trip -/

/-- Every newline in the list is followed by a character other than
`'-'`, and the list does not end in a newline.  This is the property of
the header block that makes the first occurrence of `closeMark` in the
encoded string be the real closing delimiter. -/
def hdrSafe : List Char → Bool
  | [] => true
  | c :: cs =>
    (if c = '\n' then
      match cs with
      | [] => false
      | d :: _ => decide (d ≠ '-')
    else true) && hdrSafe cs

theorem hdrSafe_cons (c : Char) (cs : List Char) :
    hdrSafe (c :: cs) =
      ((if c = '\n' then
        match cs with
        | [] => false
        | d :: _ => decide (d ≠ '-')
      else true) && hdrSafe cs) := rfl

theorem hdrSafe_tail {c : Char} {cs : List Char} (h : hdrSafe (c :: cs) = true) :
    hdrSafe cs = true := by
  rw [hdrSafe_cons, Bool.and_eq_true] at h
  exact h.2

theorem hdrSafe_of_noNL : ∀ x : List Char, noNL x = true → hdrSafe x = true := by
  intro x
  induction x with
  | nil => intro _; rfl
  | cons c cs ih =>
    intro h
    simp only [noNL, List.all_cons, Bool.and_eq_true, bne_iff_ne] at h
    rw [hdrSafe_cons, if_neg h.1, Bool.true_and]
    exact ih (by simp [noNL, h.2])

theorem hdrSafe_append_of_noNL :
    ∀ x y : List Char, noNL x = true → hdrSafe y = true → hdrSafe (x ++ y) = true := by
  intro x y hx hy
  induction x with
  | nil => exact hy
  | cons c cs ih =>
    simp only [noNL, List.all_cons, Bool.and_eq_true, bne_iff_ne] at hx
    rw [List.cons_append, hdrSafe_cons, if_neg hx.1, Bool.true_and]
    exact ih (by simp [noNL, hx.2])

theorem hdrSafe_nl_cons {d : Char} {rest : List Char} (hd : d ≠ '-')
    (h : hdrSafe (d :: rest) = true) : hdrSafe ('\n' :: d :: rest) = true := by
  rw [hdrSafe_cons, if_pos rfl]
  simp [hd, h]

theorem startsWithL_false_of_second_ne {a y d : Char} (xs ds : List Char) (h : y ≠ d) :
    startsWithL (a :: y :: xs) (a :: d :: ds) = false := by
  have hyd : (y == d) = false := by
    simp [h]
  show ((a == a) && startsWithL (y :: xs) (d :: ds)) = false
  rw [show startsWithL (y :: xs) (d :: ds) = ((y == d) && startsWithL xs ds) from rfl]
  rw [hyd]
  simp

/-- On a `hdrSafe` header block, no nonempty suffix begins an occurrence
of the closing delimiter, so `splitFirst` finds the real one. -/
theorem closeMark_safe (b : List Char) :
    ∀ a, hdrSafe a = true →
      ∀ t, t <:+ a → t ≠ [] → startsWithL closeMark (t ++ closeMark ++ b) = false := by
  intro a
  induction a with
  | nil =>
    intro _ t ht hne
    rw [List.suffix_nil] at ht
    exact absurd ht hne
  | cons c cs ih =>
    intro hsafe t ht hne
    rw [List.suffix_cons_iff] at ht
    rcases ht with rfl | ht
    · by_cases hc : c = '\n'
      · subst hc
        rw [hdrSafe_cons, Bool.and_eq_true, if_pos rfl] at hsafe
        cases cs with
        | nil => exact absurd hsafe.1 (by simp)
        | cons d cs' =>
          have hd : d ≠ '-' := by
            have := hsafe.1
            simpa using this
          show startsWithL ('\n' :: '-' :: ['-', '-', '\n'])
            ('\n' :: d :: (cs' ++ closeMark ++ b)) = false
          exact startsWithL_false_of_second_ne _ _ (fun h => hd h.symm)
      · show startsWithL ('\n' :: ['-', '-', '-', '\n'])
          (c :: (cs ++ closeMark ++ b)) = false
        exact startsWithL_false_of_head_ne _ _ (fun h => hc h.symm)
    · exact ih (hdrSafe_tail hsafe) t ht hne

theorem noNL_append (x y : List Char) :
    noNL (x ++ y) = (noNL x && noNL y) := by
  simp [noNL, List.all_append]

theorem hdrSafe_headerL (S P : List Char) (k : ℤ)
    (hS : noNL S = true) (hP : noNL P = true) :
    hdrSafe (headerL S P k) = true := by
  have h3 : hdrSafe (sortKeyL ++ intChars k) = true := by
    apply hdrSafe_of_noNL
    rw [noNL_append]
    rw [noNL_intChars]
    rfl
  have h3' : hdrSafe ('\n' :: (sortKeyL ++ intChars k)) = true := by
    rw [show sortKeyL ++ intChars k = 's' :: ("ort: ".data ++ intChars k) from rfl] at h3 ⊢
    exact hdrSafe_nl_cons (by decide) h3
  have h2 : hdrSafe (priorityKeyL ++ (P ++ '\n' :: (sortKeyL ++ intChars k))) = true :=
    hdrSafe_append_of_noNL priorityKeyL _ (by decide)
      (hdrSafe_append_of_noNL P _ hP h3')
  have h2' : hdrSafe ('\n' :: (priorityKeyL ++ (P ++ '\n' :: (sortKeyL ++ intChars k)))) =
      true := by
    rw [show priorityKeyL ++ (P ++ '\n' :: (sortKeyL ++ intChars k)) =
      'p' :: ("riority: ".data ++ (P ++ '\n' :: (sortKeyL ++ intChars k))) from rfl] at h2 ⊢
    exact hdrSafe_nl_cons (by decide) h2
  show hdrSafe (statusKeyL ++ S ++
    '\n' :: (priorityKeyL ++ P ++ '\n' :: (sortKeyL ++ intChars k))) = true
  rw [List.append_assoc priorityKeyL P _, List.append_assoc]
  exact hdrSafe_append_of_noNL statusKeyL _ (by decide)
    (hdrSafe_append_of_noNL S _ hS h2')

theorem splitLines_of_noNL : ∀ x : List Char, noNL x = true → splitLines x = [x] := by
  intro x
  induction x with
  | nil => intro _; rfl
  | cons c cs ih =>
    intro h
    simp only [noNL, List.all_cons, Bool.and_eq_true, bne_iff_ne] at h
    rw [splitLines, if_neg h.1, ih (by simp [noNL, h.2])]

theorem splitLines_append_nl :
    ∀ x y : List Char, noNL x = true → splitLines (x ++ '\n' :: y) = x :: splitLines y := by
  intro x y hx
  induction x with
  | nil =>
    show splitLines ('\n' :: y) = [] :: splitLines y
    rw [splitLines, if_pos rfl]
  | cons c cs ih =>
    simp only [noNL, List.all_cons, Bool.and_eq_true, bne_iff_ne] at hx
    rw [List.cons_append, splitLines, if_neg hx.1, ih (by simp [noNL, hx.2])]

theorem splitLines_headerL (S P : List Char) (k : ℤ)
    (hS : noNL S = true) (hP : noNL P = true) :
    splitLines (headerL S P k) =
      [statusKeyL ++ S, priorityKeyL ++ P, sortKeyL ++ intChars k] := by
  show splitLines (statusKeyL ++ S ++ '\n' :: (priorityKeyL ++ P ++
    '\n' :: (sortKeyL ++ intChars k))) = _
  rw [splitLines_append_nl _ _ (by rw [noNL_append, hS]; rfl)]
  rw [splitLines_append_nl _ _ (by rw [noNL_append, hP]; rfl)]
  rw [splitLines_of_noNL _ (by rw [noNL_append, noNL_intChars]; rfl)]

theorem fieldVal_match (key v : List Char) (ls : List (List Char)) :
    fieldVal key ((key ++ v) :: ls) = some v := by
  rw [fieldVal, if_pos (startsWithL_self_append key v)]
  rw [List.drop_left]

theorem fieldVal_skip (key l : List Char) (ls : List (List Char))
    (h : startsWithL key l = false) :
    fieldVal key (l :: ls) = fieldVal key ls := by
  rw [fieldVal, h]
  rfl

theorem statusKey_not_prioLine (P : List Char) :
    startsWithL statusKeyL (priorityKeyL ++ P) = false := by
  rw [show statusKeyL = 's' :: "tatus: ".data from rfl]
  rw [show priorityKeyL ++ P = 'p' :: ("riority: ".data ++ P) from by
    rw [show priorityKeyL = 'p' :: "riority: ".data from rfl]; simp]
  exact startsWithL_false_of_head_ne _ _ (by decide)

theorem prioKey_not_statusLine (S : List Char) :
    startsWithL priorityKeyL (statusKeyL ++ S) = false := by
  rw [show priorityKeyL = 'p' :: "riority: ".data from rfl]
  rw [show statusKeyL ++ S = 's' :: ("tatus: ".data ++ S) from by
    rw [show statusKeyL = 's' :: "tatus: ".data from rfl]; simp]
  exact startsWithL_false_of_head_ne _ _ (by decide)

theorem sortKey_not_statusLine (S : List Char) :
    startsWithL sortKeyL (statusKeyL ++ S) = false := by
  rw [show sortKeyL = 's' :: 'o' :: "rt: ".data from rfl]
  rw [show statusKeyL ++ S = 's' :: 't' :: ("atus: ".data ++ S) from by
    rw [show statusKeyL = 's' :: 't' :: "atus: ".data from rfl]; simp]
  exact startsWithL_false_of_second_ne _ _ (by decide)

theorem sortKey_not_prioLine (P : List Char) :
    startsWithL sortKeyL (priorityKeyL ++ P) = false := by
  rw [show sortKeyL = 's' :: "ort: ".data from rfl]
  rw [show priorityKeyL ++ P = 'p' :: ("riority: ".data ++ P) from by
    rw [show priorityKeyL = 'p' :: "riority: ".data from rfl]; simp]
  exact startsWithL_false_of_head_ne _ _ (by decide)

theorem parseHeaderL_headerL (S P : List Char) (k : ℤ)
    (hS : noNL S = true) (hS0 : S ≠ []) (hP : noNL P = true) (hP0 : P ≠ []) :
    parseHeaderL (headerL S P k) = (S, P, k) := by
  rw [parseHeaderL]
  rw [splitLines_headerL S P k hS hP]
  have hstat : getField statusKeyL [statusKeyL ++ S, priorityKeyL ++ P,
      sortKeyL ++ intChars k] "todo".data = S := by
    rw [getField, fieldVal_match]
    show (if S = [] then "todo".data else S) = S
    rw [if_neg hS0]
  have hprio : getField priorityKeyL [statusKeyL ++ S, priorityKeyL ++ P,
      sortKeyL ++ intChars k] "medium".data = P := by
    rw [getField, fieldVal_skip _ _ _ (prioKey_not_statusLine S), fieldVal_match]
    show (if P = [] then "medium".data else P) = P
    rw [if_neg hP0]
  have hsort : fieldVal sortKeyL [statusKeyL ++ S, priorityKeyL ++ P,
      sortKeyL ++ intChars k] = some (intChars k) := by
    rw [fieldVal_skip _ _ _ (sortKey_not_statusLine S),
      fieldVal_skip _ _ _ (sortKey_not_prioLine P), fieldVal_match]
  rw [hstat, hprio, hsort]
  simp [parseIntL_intChars]

/-- The codec round trip at the character level: decoding an encoded
task recovers each field exactly, for any newline-free nonempty status
and priority values, any integer sort key, and any body. -/
theorem parseContentL_buildContentL (S P : List Char) (k : ℤ) (B : List Char)
    (hS : noNL S = true) (hS0 : S ≠ []) (hP : noNL P = true) (hP0 : P ≠ []) :
    parseContentL (buildContentL S P k B) = ⟨⟨S⟩, ⟨P⟩, k, ⟨B⟩⟩ := by
  rw [parseContentL]
  rw [buildContentL]
  rw [startsWithL_self_append openMark _]
  rw [if_pos rfl]
  have hdrop : (openMark ++ (headerL S P k ++ (closeMark ++ '\n' :: B))).drop 4 =
      headerL S P k ++ closeMark ++ ('\n' :: B) := by
    rw [List.append_assoc]
    rfl
  rw [hdrop]
  rw [splitFirst_of_safe closeMark ('\n' :: B) (by simp [closeMark]) (headerL S P k)
    (closeMark_safe ('\n' :: B) (headerL S P k) (hdrSafe_headerL S P k hS hP))]
  show ParsedTask.mk ⟨(parseHeaderL (headerL S P k)).1⟩ ⟨(parseHeaderL (headerL S P k)).2.1⟩
    (parseHeaderL (headerL S P k)).2.2 ⟨stripLead ('\n' :: B)⟩ = _
  rw [parseHeaderL_headerL S P k hS hS0 hP hP0]
  rfl

/-- String-level codec round trip. -/
theorem parseContent_buildContent (S P : String) (k : ℤ) (B : String)
    (hS : noNL S.data = true) (hS0 : S.data ≠ []) (hP : noNL P.data = true)
    (hP0 : P.data ≠ []) :
    parseContent (buildContent S P k B) = ⟨S, P, k, B⟩ := by
  rw [parseContent, buildContent]
  rw [show (String.mk (buildContentL S.data P.data k B.data)).data =
    buildContentL S.data P.data k B.data from rfl]
  rw [parseContentL_buildContentL S.data P.data k B.data hS hS0 hP hP0]

/-! ## Board model (`js/kanban.js`)

The sync engine's in-memory state is the fetched fragment list
`this.todos`; each entry carries the server-assigned id, title, summary,
raw content and tags.  The remote store is modelled as the same list, and
`loadTodos` replaces the cache with the store. -/

/-- A task fragment as fetched from the remote store. -/
structure Todo where
  id : String
  title : String
  summary : String
  content : String
  tags : List String
deriving DecidableEq, Repr

/-- CONFIG.DEFAULT_TAGS from `config.js`. -/
def DEFAULT_TAGS : List String := ["kloddin", "todo"]

/-- CONFIG.STATUSES values. -/
def STATUSES : List String := ["todo", "in-progress", "done"]

/-- JS `x || d` on an optional string: `undefined`/`null` and the empty
string are falsy and fall through to the default. -/
def jsOr (o : Option String) (d : String) : String :=
  match o with
  | none => d
  | some s => if s = "" then d else s

/-- Character-level lower-casing of ASCII letters
(JS `String.toLowerCase` on the tag alphabet). -/
def lowerChar (c : Char) : Char :=
  if 'A' ≤ c ∧ c ≤ 'Z' then Char.ofNat (c.toNat + 32) else c

/-- JS `tag.trim().toLowerCase()`: strip ASCII whitespace at both ends
and lower-case. -/
def trimLower (s : String) : String :=
  ⟨((s.data.dropWhile (fun c => c.isWhitespace)).reverse.dropWhile
      (fun c => c.isWhitespace)).reverse.map lowerChar⟩

/-- `UsableAPI.buildTags`: normalize user tags and prepend the default
tags, deduplicating while keeping first occurrences (JS `Set` insertion
order). -/
def buildTags (tags : List String) : List String :=
  (DEFAULT_TAGS ++ ((tags.map trimLower).filter (fun t => t ≠ ""))).eraseDups

/-- A task is visible on the board iff its parsed status is not
`deleted` (`renderBoard`, `getBoardContext`, `list_tasks` all skip
deleted tasks). -/
def visibleB (t : Todo) : Bool := (parseContent t.content).status != "deleted"

/-- The non-deleted tasks, in cache order (`getBoardContext` and the
`list_tasks` tool both start from this filter). -/
def visibleTodos (todos : List Todo) : List Todo := todos.filter visibleB

/-- The column a task is grouped into by `renderBoard`: its parsed
status when that is one of the three configured columns, `todo`
otherwise. -/
def groupKey (t : Todo) : String :=
  let st := (parseContent t.content).status
  if st ∈ STATUSES then st else "todo"

/-- The parsed sort key used for ordering inside a column
(`a.parsed.sort || 0`). -/
def sortOf (t : Todo) : ℤ := (parseContent t.content).sort

/-- Stable insertion of a task into a column ordered ascending by sort
key: equal keys keep their existing relative order, as the JS stable
`Array.sort` does. -/
def insSorted (x : Todo) : List Todo → List Todo
  | [] => [x]
  | y :: ys => if sortOf y ≤ sortOf x then y :: insSorted x ys else x :: y :: ys

/-- Stable sort of a column by ascending sort key. -/
def sortBySort : List Todo → List Todo
  | [] => []
  | x :: xs => insSorted x (sortBySort xs)

/-- The rendered cards of the column `s`: visible tasks grouped into
`s`, ordered ascending by parsed sort key (`renderBoard`). -/
def columnOf (todos : List Todo) (s : String) : List Todo :=
  sortBySort (todos.filter (fun t => visibleB t && groupKey t == s))

/-- The per-column count rendered next to the column header. -/
def columnCount (todos : List Todo) (s : String) : ℕ := (columnOf todos s).length

/-- The number shown in the header's total task-count display:
`renderBoard` prints `this.todos.length`, the length of the whole cache. -/
def totalCount (todos : List Todo) : ℕ := todos.length

/-- Tags shown to the user: the default tags are filtered out
(`createCard`, `getBoardContext`, `list_tasks`, `get_task`). -/
def userTags (tags : List String) : List String :=
  tags.filter (fun t => t ∉ DEFAULT_TAGS)

/-- `getCardSort`: look a card's task up by id in the cache and return
its parsed sort key, `0` when the id is unknown. -/
def getCardSort (todos : List Todo) (id : String) : ℤ :=
  match todos.find? (fun t => t.id == id) with
  | some t => (parseContent t.content).sort
  | none => 0

/-- `calculateSortValue`: the sort key allocated for dropping at
position `index` of a column whose non-dragged cards are `cards`.  The
lower neighbour's key defaults to `0` (no previous card) and the upper
neighbour's key defaults to the current time `now` (no next card);
the result is the floor midpoint `Math.floor((prevSort + nextSort) / 2)`. -/
def calculateSortValue (cards : List Todo) (todos : List Todo) (index : ℕ) (now : ℤ) : ℤ :=
  let prevSort : ℤ :=
    match index with
    | 0 => 0
    | i + 1 =>
      match cards.get? i with
      | some c => getCardSort todos c.id
      | none => 0
  let nextSort : ℤ :=
    match cards.get? index with
    | some c => getCardSort todos c.id
    | none => now
  Int.fdiv (prevSort + nextSort) 2

/-- The decision taken by `handleDrop` after computing the drop index:
`none` when neither the status nor the sort key changes (no remote call
is issued and the cache is untouched), otherwise the `(status, sort)`
pair sent to `updateTodo`. -/
def dropDecision (todos : List Todo) (dragged : Todo) (newStatus : String)
    (dropIndex : ℕ) (now : ℤ) : Option (String × ℤ) :=
  let cards := (columnOf todos newStatus).filter (fun u => u.id != dragged.id)
  let newSort := calculateSortValue cards todos dropIndex now
  let oldStatus := (parseContent dragged.content).status
  let oldSort := (parseContent dragged.content).sort
  if newStatus = oldStatus ∧ newSort = oldSort then none
  else some (newStatus, newSort)

/-! ## Remote operations and the chat tool bridge

`UsableAPI.createTodo` / `updateTodo` encode the task fields through the
codec and send them to the store; the `handleToolCall` dispatcher of
`kanban.js` exposes six tools to the embedded chat and reloads the cache
after every mutation. -/

/-- The field bundle passed from `kanban.js` into the API layer
(`buildContent(todo)`, `updateTodo(id, todo)`, ...).  Absent fields model
JS `undefined`. -/
structure TodoFields where
  title : Option String
  summary : Option String
  status : Option String
  priority : Option String
  sort : Option ℤ
  content : Option String
  tags : Option (List String)
deriving DecidableEq, Repr

/-- Encoder entry point as called with a JS field object:
`status || 'todo'`, `priority || 'medium'`, default sort `0`, body
defaulting to the empty string. -/
def buildContentF (f : TodoFields) : String :=
  buildContent (jsOr f.status "todo") (jsOr f.priority "medium") (f.sort.getD 0)
    (f.content.getD "")

/-- The fragment as it stands in the store after `updateTodo` patched
title, summary, content and tags. -/
def applyUpdate (t : Todo) (f : TodoFields) : Todo :=
  { id := t.id
    title := f.title.getD ""
    summary := jsOr f.summary ""
    content := buildContentF f
    tags := buildTags (f.tags.getD []) }

/-- `UsableAPI.updateTodo`: patch the fragment with the given id. -/
def updateTodo (store : List Todo) (id : String) (f : TodoFields) : List Todo :=
  store.map (fun t => if t.id == id then applyUpdate t f else t)

/-- Modelled from the spec: the shipped `kanban.js` calls
`UsableAPI.deleteTodo(id, fields)` with the full field bundle and its
doc comment calls the operation a soft-delete, but the sort-aware
`api.js` revision implementing it is not among the available repository
files.  Per spec 4.3, `softDelete(id, fields)` is functionally an update
that sets `status = deleted`. -/
def deleteTodo (store : List Todo) (id : String) (f : TodoFields) : List Todo :=
  updateTodo store id { f with status := some "deleted" }

/-- Server-assigned id for a freshly created fragment (opaque; modelled
as a function of the store size). -/
def freshId (store : List Todo) : String := ⟨'f' :: natChars store.length⟩

/-- `UsableAPI.createTodo`: append a new fragment with a server-assigned
id. -/
def createTodo (store : List Todo) (f : TodoFields) : List Todo :=
  store ++ [{ id := freshId store
              title := f.title.getD ""
              summary := jsOr f.summary ""
              content := buildContentF f
              tags := buildTags (f.tags.getD []) }]

/-- A task row as returned by the `list_tasks` / `get_task` tools. -/
structure TaskEntry where
  id : String
  title : String
  summary : String
  status : String
  priority : String
  tags : List String
deriving DecidableEq, Repr

def entryOf (t : Todo) : TaskEntry :=
  { id := t.id
    title := t.title
    summary := t.summary
    status := (parseContent t.content).status
    priority := (parseContent t.content).priority
    tags := userTags t.tags }

/-- The `list_tasks` tool: non-deleted tasks, optionally filtered by
status (`input?.status` is a JS truthiness check, so an empty-string
filter means no filter). -/
def listTasks (todos : List Todo) (filt : Option String) : List TaskEntry :=
  let tasks := visibleTodos todos
  let filtered :=
    match filt with
    | some s =>
      if s = "" then tasks
      else tasks.filter (fun t => (parseContent t.content).status == s)
    | none => tasks
  filtered.map entryOf

/-- Tool invocation input payload; absent fields model JS `undefined`. -/
structure ToolCallInput where
  id : Option String
  title : Option String
  summary : Option String
  status : Option String
  priority : Option String
  content : Option String
  tags : Option (List String)
deriving DecidableEq, Repr

/-- An input carrying only a task id. -/
def inputWithId (i : String) : ToolCallInput := ⟨some i, none, none, none, none, none, none⟩

/-- The result payload of a `TOOL_RESPONSE`: a task list, a single task
(with its body text), a success message, or — in the catch branch — an
object with an `error` field. -/
inductive ToolResult where
  | listR (entries : List TaskEntry)
  | taskR (entry : TaskEntry) (content : String)
  | okR (message : String)
  | errR (error : String)
deriving DecidableEq, Repr

/-- One `TOOL_RESPONSE{requestId, result}` message posted back to the
embed. -/
structure ToolResponse where
  requestId : String
  result : ToolResult
deriving DecidableEq, Repr

/-- The bridge-visible sync state: the remote store and the in-memory
cache `this.todos`. -/
structure BridgeState where
  store : List Todo
  cache : List Todo
deriving DecidableEq, Repr

/-- Cache lookup by tool-input id (`this.todos.find(t => t.id === input.id)`). -/
def findTodo (todos : List Todo) (id : Option String) : Option Todo :=
  match id with
  | some i => todos.find? (fun t => t.id == i)
  | none => none

def createFieldsOf (input : ToolCallInput) : TodoFields :=
  { title := input.title
    summary := some (jsOr input.summary (input.title.getD ""))
    status := some (jsOr input.status "todo")
    priority := some (jsOr input.priority "medium")
    sort := none
    content := some (input.content.getD "")
    tags := some (input.tags.getD []) }

def updateFieldsOf (input : ToolCallInput) (existing : Todo) : TodoFields :=
  let ep := parseContent existing.content
  { title := some (jsOr input.title existing.title)
    summary := some (jsOr input.summary existing.summary)
    status := some ep.status
    priority := some (jsOr input.priority ep.priority)
    sort := some ep.sort
    content := some (input.content.getD ep.body)
    tags := some (input.tags.getD existing.tags) }

def moveFieldsOf (input : ToolCallInput) (toMove : Todo) : TodoFields :=
  let mp := parseContent toMove.content
  { title := some toMove.title
    summary := some toMove.summary
    status := input.status
    priority := some mp.priority
    sort := some mp.sort
    content := some mp.body
    tags := some toMove.tags }

def deleteFieldsOf (toDelete : Todo) : TodoFields :=
  let dp := parseContent toDelete.content
  { title := some toDelete.title
    summary := some toDelete.summary
    status := none
    priority := some dp.priority
    sort := none
    content := some dp.body
    tags := some toDelete.tags }

/-- The six tool names registered with the chat embed. -/
def knownTools : List String :=
  ["list_tasks", "get_task", "create_task", "update_task", "move_task", "delete_task"]

/-- `KanbanBoard.handleToolCall`: dispatch one `TOOL_CALL` payload.
Exactly one `TOOL_RESPONSE` is produced on every path; mutating tools
write to the store and reload the cache from it; a thrown error (missing
task, unknown tool) is caught and posted back as a result carrying an
`error` field. -/
def handleToolCall (st : BridgeState) (requestId tool : String) (input : ToolCallInput) :
    BridgeState × List ToolResponse :=
  if tool = "list_tasks" then
    (st, [⟨requestId, .listR (listTasks st.cache input.status)⟩])
  else if tool = "get_task" then
    match findTodo st.cache input.id with
    | none => (st, [⟨requestId, .errR ("Task not found: " ++ input.id.getD "undefined")⟩])
    | some t => (st, [⟨requestId, .taskR (entryOf t) (parseContent t.content).body⟩])
  else if tool = "create_task" then
    let store' := createTodo st.store (createFieldsOf input)
    (⟨store', store'⟩,
      [⟨requestId, .okR ("Task \"" ++ input.title.getD "" ++ "\" created")⟩])
  else if tool = "update_task" then
    match findTodo st.cache input.id with
    | none => (st, [⟨requestId, .errR ("Task not found: " ++ input.id.getD "undefined")⟩])
    | some t =>
      let store' := updateTodo st.store t.id (updateFieldsOf input t)
      (⟨store', store'⟩,
        [⟨requestId, .okR ("Task \"" ++ jsOr input.title t.title ++ "\" updated")⟩])
  else if tool = "move_task" then
    match findTodo st.cache input.id with
    | none => (st, [⟨requestId, .errR ("Task not found: " ++ input.id.getD "undefined")⟩])
    | some t =>
      let store' := updateTodo st.store t.id (moveFieldsOf input t)
      (⟨store', store'⟩,
        [⟨requestId, .okR ("Task \"" ++ t.title ++ "\" moved to " ++
          input.status.getD "undefined")⟩])
  else if tool = "delete_task" then
    match findTodo st.cache input.id with
    | none => (st, [⟨requestId, .errR ("Task not found: " ++ input.id.getD "undefined")⟩])
    | some t =>
      let store' := deleteTodo st.store t.id (deleteFieldsOf t)
      (⟨store', store'⟩, [⟨requestId, .okR ("Task \"" ++ t.title ++ "\" deleted")⟩])
  else
    (st, [⟨requestId, .errR ("Unknown tool: " ++ tool)⟩])

/-! ## OAuth PKCE helper (`UsableAuth`)

State split mirrors the source: access/refresh token in memory, the
refresh token mirrored into durable storage, the PKCE verifier in
session storage, the pending refresh timer, and the `?code=` query
parameter of the location bar.  The network outcome of the token
endpoint is passed in explicitly. -/

structure AuthState where
  accessToken : Option String
  refreshTok : Option String
  timerDelay : Option ℤ
  sessionVerifier : Option String
  storedRefresh : Option String
  urlCode : Option String
deriving DecidableEq, Repr

/-- A token-endpoint success payload. -/
structure TokenResponse where
  access_token : String
  refresh_token : Option String
  expires_in : Option ℤ
deriving DecidableEq, Repr

/-- Outcome of one `fetch('/auth/token')` round trip: a parsed success
payload, or a failure (non-ok response or thrown error — both reach the
same catch block). -/
inductive ExchangeOutcome where
  | ok (tokens : TokenResponse)
  | fail (error : String)
deriving DecidableEq, Repr

/-- JS `v || d` on an optional integer (`tokens.expires_in || 300`):
absent and `0` both fall through. -/
def jsOrInt (o : Option ℤ) (d : ℤ) : ℤ :=
  match o with
  | none => d
  | some v => if v = 0 then d else v

/-- `scheduleRefresh`: the one-shot timer delay, 30s before expiry with
a 10s floor. -/
def scheduleRefresh (expiresIn : ℤ) : ℤ := max ((expiresIn - 30) * 1000) 10000

/-- `_setTokens`: store the pair, persist the refresh token when one was
returned, and re-arm the (single) refresh timer. -/
def setTokens (st : AuthState) (t : TokenResponse) : AuthState :=
  { st with
    accessToken := some t.access_token
    refreshTok := t.refresh_token
    storedRefresh :=
      match t.refresh_token with
      | some r => if r = "" then st.storedRefresh else some r
      | none => st.storedRefresh
    timerDelay := some (scheduleRefresh (jsOrInt t.expires_in 300)) }

/-- `UsableAuth.handleCallback`: with no `?code=` or no stored verifier
return `false` unchanged; otherwise exchange the code.  On success store
the tokens, remove the verifier from session storage, clear the code
from the location bar and return `true`; a failed exchange throws into
the catch block, which returns `false` leaving the state — including the
verifier — untouched. -/
def handleCallback (st : AuthState) (exchange : ExchangeOutcome) : AuthState × Bool :=
  match st.urlCode with
  | none => (st, false)
  | some code =>
    if code = "" then (st, false)
    else
      match st.sessionVerifier with
      | none => (st, false)
      | some _ =>
        match exchange with
        | .fail _ => (st, false)
        | .ok t =>
          let st' := setTokens st t
          ({ st' with sessionVerifier := none, urlCode := none }, true)

/-- `UsableAuth.refreshToken`: exchange the durable refresh token for a
new pair; with no refresh token do nothing; on a non-ok response clear
all token state; on success store the new pair. -/
def refreshTokenOp (st : AuthState) (outcome : ExchangeOutcome) : AuthState × Option String :=
  match (match st.refreshTok with | some r => some r | none => st.storedRefresh) with
  | none => (st, none)
  | some _ =>
    match outcome with
    | .fail _ =>
      ({ st with accessToken := none, refreshTok := none, storedRefresh := none }, none)
    | .ok t => (setTokens st t, some t.access_token)

/-- Claims decoded from the JWT payload segment. -/
structure JwtPayload where
  name : Option String
  preferred_username : Option String
  email : Option String
  sub : Option String
deriving DecidableEq, Repr

structure UserInfo where
  name : String
  email : String
  sub : Option String
deriving DecidableEq, Repr

/-- `UsableAuth.getUserInfo`: split the in-memory access token on dots;
anything other than exactly three segments, or a middle segment the
base64url/JSON decoder rejects, yields `null` (the JS try/catch makes
decoding total).  The decoder itself (`atob` + `JSON.parse`, applied to
the `-`/`_`-substituted middle segment) is a platform collaborator and
is passed in as a function. -/
def getUserInfo (decodePayload : String → Option JwtPayload)
    (accessToken : Option String) : Option UserInfo :=
  match accessToken with
  | none => none
  | some tok =>
    if tok = "" then none
    else
      let parts := splitOnChar '.' tok.data
      if parts.length = 3 then
        match decodePayload ⟨parts.getD 1 []⟩ with
        | none => none
        | some p =>
          some { name := jsOr p.name (jsOr p.preferred_username "User")
                 email := jsOr p.email ""
                 sub := p.sub }
      else none

/-! ## The postMessage listener (tool bridge transport)

`bindEvents` installs a single `message` listener which first checks
`e.origin` against the one allowed embed origin and returns before any
dispatch otherwise. -/

/-- Messages posted to the embed iframe. -/
inductive OutMsg where
  | authMsg (token : String)
  | registerToolsMsg (tools : List String)
  | addContextMsg (tasks : List Todo)
  | toolResponseMsg (r : ToolResponse)
deriving DecidableEq, Repr

/-- Inbound window messages dispatched by the listener (`READY`,
`REQUEST_TOKEN_REFRESH`, `TOOL_CALL`, `TOOLS_REGISTERED`; anything else
falls through every `if`). -/
inductive InboundMsg where
  | ready
  | requestTokenRefresh
  | toolCall (requestId tool : String) (input : ToolCallInput)
  | toolsRegistered
  | other
deriving DecidableEq, Repr

/-- The application state observable across the bridge: sync state plus
auth state. -/
structure AppState where
  bridge : BridgeState
  auth : AuthState
deriving DecidableEq, Repr

/-- The single allowed embed origin. -/
def allowedOrigin : String := "https://chat.usable.dev"

/-- `sendAuthToEmbed`: push the current JWT, unless there is none. -/
def sendAuthToEmbed (st : AppState) : List OutMsg :=
  match st.auth.accessToken with
  | none => []
  | some t => if t = "" then [] else [.authMsg t]

/-- `registerChatTools`: push the tool catalog and the board-context
digest (built from the non-deleted tasks). -/
def registerChatTools (st : AppState) : List OutMsg :=
  [.registerToolsMsg knownTools, .addContextMsg (visibleTodos st.bridge.cache)]

/-- The message listener: drop everything from a foreign origin, else
dispatch on the message type. -/
def processMessage (exchange : ExchangeOutcome) (origin : String) (msg : InboundMsg)
    (st : AppState) : AppState × List OutMsg :=
  if origin ≠ allowedOrigin then (st, [])
  else
    match msg with
    | .ready => (st, sendAuthToEmbed st ++ registerChatTools st)
    | .requestTokenRefresh =>
      let auth' := (refreshTokenOp st.auth exchange).1
      let st' := { st with auth := auth' }
      (st', sendAuthToEmbed st')
    | .toolCall rid tool input =>
      let r := handleToolCall st.bridge rid tool input
      ({ st with bridge := r.1 }, r.2.map .toolResponseMsg)
    | .toolsRegistered => (st, [])
    | .other => (st, [])

/-! ## Supporting lemmas -/

theorem mem_insSorted (x y : Todo) (l : List Todo) :
    y ∈ insSorted x l ↔ y = x ∨ y ∈ l := by
  induction l with
  | nil => simp [insSorted]
  | cons z zs ih =>
    rw [insSorted]
    by_cases h : sortOf z ≤ sortOf x
    · rw [if_pos h]
      simp only [List.mem_cons, ih]
      tauto
    · rw [if_neg h]
      simp only [List.mem_cons]

theorem mem_sortBySort (y : Todo) (l : List Todo) :
    y ∈ sortBySort l ↔ y ∈ l := by
  induction l with
  | nil => simp [sortBySort]
  | cons z zs ih =>
    rw [sortBySort, mem_insSorted]
    simp [ih]

theorem splitLines_ne_nil (cs : List Char) : splitLines cs ≠ [] := by
  cases cs with
  | nil => simp [splitLines]
  | cons c cs' =>
    rw [splitLines]
    by_cases h : c = '\n'
    · rw [if_pos h]; simp
    · rw [if_neg h]
      cases hs : splitLines cs' with
      | nil => simp
      | cons l ls => simp

theorem mem_splitLines_noNL : ∀ cs l, l ∈ splitLines cs → noNL l = true := by
  intro cs
  induction cs with
  | nil =>
    intro l hl
    simp [splitLines] at hl
    simp [hl, noNL]
  | cons c cs' ih =>
    intro l hl
    rw [splitLines] at hl
    by_cases h : c = '\n'
    · rw [if_pos h] at hl
      rcases List.mem_cons.mp hl with rfl | hl
      · rfl
      · exact ih l hl
    · rw [if_neg h] at hl
      cases hs : splitLines cs' with
      | nil => exact absurd hs (splitLines_ne_nil cs')
      | cons l0 ls =>
        rw [hs] at hl
        rcases List.mem_cons.mp hl with rfl | hl
        · have h0 : noNL l0 = true := ih l0 (by rw [hs]; exact List.mem_cons_self l0 ls)
          simp only [noNL, List.all_cons, Bool.and_eq_true, bne_iff_ne]
          exact ⟨h, h0⟩
        · exact ih l (by rw [hs]; exact List.mem_cons_of_mem l0 hl)

theorem fieldVal_mem :
    ∀ (key : List Char) (lines : List (List Char)) (v : List Char),
      fieldVal key lines = some v → ∃ l, l ∈ lines ∧ v = l.drop key.length := by
  intro key lines
  induction lines with
  | nil => intro v hv; simp [fieldVal] at hv
  | cons l ls ih =>
    intro v hv
    rw [fieldVal] at hv
    by_cases h : startsWithL key l = true
    · rw [if_pos h] at hv
      exact ⟨l, List.mem_cons_self l ls, (Option.some_inj.mp hv).symm⟩
    · rw [if_neg h] at hv
      obtain ⟨l', hl', hv'⟩ := ih v hv
      exact ⟨l', List.mem_cons_of_mem l hl', hv'⟩

theorem noNL_drop (l : List Char) (n : ℕ) (h : noNL l = true) : noNL (l.drop n) = true := by
  simp only [noNL, List.all_eq_true, bne_iff_ne] at h ⊢
  intro c hc
  exact h c (List.drop_subset n l hc)

theorem getField_ok (key : List Char) (lines : List (List Char)) (dflt : List Char)
    (hd : noNL dflt = true) (hd0 : dflt ≠ [])
    (hl : ∀ l ∈ lines, noNL l = true) :
    noNL (getField key lines dflt) = true ∧ getField key lines dflt ≠ [] := by
  rw [getField]
  cases hv : fieldVal key lines with
  | none => exact ⟨hd, hd0⟩
  | some v =>
    show noNL (if v = [] then dflt else v) = true ∧ (if v = [] then dflt else v) ≠ []
    by_cases h0 : v = []
    · rw [if_pos h0]
      exact ⟨hd, hd0⟩
    · rw [if_neg h0]
      obtain ⟨l, hlm, rfl⟩ := fieldVal_mem key lines v hv
      exact ⟨noNL_drop l key.length (hl l hlm), h0⟩

/-- Whatever the raw content, the decoded status and priority are
newline-free and nonempty (they are either a default or the value of a
single header line). -/
theorem parseContent_wf (s : String) :
    noNL (parseContent s).status.data = true ∧ (parseContent s).status.data ≠ [] ∧
      noNL (parseContent s).priority.data = true ∧ (parseContent s).priority.data ≠ [] := by
  rw [parseContent, parseContentL]
  by_cases h : startsWithL openMark s.data = true
  · rw [if_pos h]
    cases hsp : splitFirst closeMark (s.data.drop 4) with
    | none =>
      show noNL ("todo" : String).data = true ∧ ("todo" : String).data ≠ [] ∧
        noNL ("medium" : String).data = true ∧ ("medium" : String).data ≠ []
      exact ⟨by decide, by decide, by decide, by decide⟩
    | some pr =>
      obtain ⟨header, rest⟩ := pr
      have hlines : ∀ l ∈ splitLines header, noNL l = true :=
        fun l hl => mem_splitLines_noNL header l hl
      have hs := getField_ok statusKeyL (splitLines header) "todo".data
        (by decide) (by decide) hlines
      have hp := getField_ok priorityKeyL (splitLines header) "medium".data
        (by decide) (by decide) hlines
      show noNL (parseHeaderL header).1 = true ∧ (parseHeaderL header).1 ≠ [] ∧
        noNL (parseHeaderL header).2.1 = true ∧ (parseHeaderL header).2.1 ≠ []
      exact ⟨hs.1, hs.2, hp.1, hp.2⟩
  · rw [if_neg h]
    show noNL ("todo" : String).data = true ∧ ("todo" : String).data ≠ [] ∧
      noNL ("medium" : String).data = true ∧ ("medium" : String).data ≠ []
    exact ⟨by decide, by decide, by decide, by decide⟩

/-- `jsOr` with a well-formed default and well-formed present values
yields a newline-free nonempty string. -/
theorem jsOr_wf (o : Option String) (d : String) (hd : noNL d.data = true)
    (hd0 : d.data ≠ []) (ho : ∀ s, o = some s → noNL s.data = true) :
    noNL (jsOr o d).data = true ∧ (jsOr o d).data ≠ [] := by
  match o with
  | none => exact ⟨hd, hd0⟩
  | some s =>
    rw [jsOr]
    by_cases h : s = ""
    · rw [if_pos h]
      exact ⟨hd, hd0⟩
    · rw [if_neg h]
      refine ⟨ho s rfl, fun hc => h ?_⟩
      cases s with
      | mk data => cases hc; rfl

/-- The update written by the (spec-modelled) soft delete decodes to
status `deleted`. -/
theorem parseContent_buildContentF_deleted (f : TodoFields) (hf : f.status = some "deleted")
    (hp : ∀ s, f.priority = some s → noNL s.data = true) :
    (parseContent (buildContentF f)).status = "deleted" := by
  rw [buildContentF, hf]
  have hpw := jsOr_wf f.priority "medium" (by decide) (by decide) hp
  rw [show jsOr (some "deleted") "todo" = "deleted" from by decide]
  rw [parseContent_buildContent "deleted" (jsOr f.priority "medium") (f.sort.getD 0)
    (f.content.getD "") (by decide) (by decide) hpw.1 hpw.2]

theorem find?_map_id_preserving (g : Todo → Todo) (hg : ∀ t, (g t).id = t.id)
    (i : String) : ∀ l : List Todo,
      (l.map g).find? (fun t => t.id == i) = (l.find? (fun t => t.id == i)).map g := by
  intro l
  induction l with
  | nil => rfl
  | cons t ts ih =>
    rw [List.map_cons]
    by_cases h : t.id == i
    · rw [List.find?_cons_of_pos, List.find?_cons_of_pos]
      · rfl
      · exact h
      · show ((g t).id == i) = true
        rw [hg t]
        exact h
    · rw [List.find?_cons_of_neg, List.find?_cons_of_neg, ih]
      · exact fun hc => h hc
      · show ¬((g t).id == i) = true
        rw [hg t]
        exact fun hc => h hc

theorem applyUpdate_id (t : Todo) (f : TodoFields) : (applyUpdate t f).id = t.id := rfl

theorem find?_eq_some_pred {l : List Todo} {p : Todo → Bool} {t : Todo}
    (h : l.find? p = some t) : p t = true := List.find?_some h

/-! ## Claims -/

/-- The four statuses a stored task can carry (the three columns plus
the soft-delete marker). -/
inductive TStatus where
  | todo
  | inProgress
  | done
  | deleted
deriving DecidableEq, Repr

def TStatus.str : TStatus → String
  | .todo => "todo"
  | .inProgress => "in-progress"
  | .done => "done"
  | .deleted => "deleted"

/-- The three priority levels. -/
inductive TPriority where
  | low
  | medium
  | high
deriving DecidableEq, Repr

def TPriority.str : TPriority → String
  | .low => "low"
  | .medium => "medium"
  | .high => "high"

/-- C1: codec round trip — for every status in
{todo, in-progress, done, deleted}, every priority in
{low, medium, high}, every integer sort key and every body text that
does not start with the header delimiter sequence, decoding the encoding
returns exactly the same status, priority, sort key and body. -/
theorem c1_codec_round_trip (s : TStatus) (p : TPriority) (k : ℤ) (body : String)
    (hb : startsWithL openMark body.data = false) :
    parseContent (buildContent s.str p.str k body) = ⟨s.str, p.str, k, body⟩ := by
  apply parseContent_buildContent
  · cases s <;> decide
  · cases s <;> decide
  · cases p <;> decide
  · cases p <;> decide

/-- Witness for C1 at a concrete tuple. -/
theorem c1_codec_round_trip_witness :
    startsWithL openMark ("write the\nreport" : String).data = false ∧
      parseContent (buildContent "in-progress" "high" (-7) "write the\nreport") =
        ⟨"in-progress", "high", -7, "write the\nreport"⟩ :=
  ⟨by decide,
    c1_codec_round_trip TStatus.inProgress TPriority.high (-7) "write the\nreport" (by decide)⟩

/-- C5: decode totality and defaults — `parseContent` is a total
function (the embedding is a Lean function, hence never throws), a
`null` content decodes to all defaults, and every input that is not
delimited by the literal marker pair decodes to status `todo`, priority
`medium`, sort `0`, with the entire input unchanged as body. -/
theorem c5_parse_total_defaults :
    (∀ content : String, hasFrontmatter content = false →
        parseContent content = ⟨"todo", "medium", 0, content⟩) ∧
      parseContentOpt none = ⟨"todo", "medium", 0, ""⟩ := by
  constructor
  · intro content h
    rw [hasFrontmatter] at h
    rw [parseContent, parseContentL]
    by_cases h1 : startsWithL openMark content.data = true
    · rw [if_pos h1]
      rw [h1, Bool.true_and] at h
      cases hsp : splitFirst closeMark (content.data.drop 4) with
      | none => rfl
      | some pr =>
        rw [hsp] at h
        simp at h
    · rw [if_neg h1]
  · rfl

/-- Witness for C5 at a concrete non-delimited input. -/
theorem c5_parse_total_defaults_witness :
    hasFrontmatter "plain note\n--- not a header" = false ∧
      parseContent "plain note\n--- not a header" =
        ⟨"todo", "medium", 0, "plain note\n--- not a header"⟩ :=
  ⟨by decide, c5_parse_total_defaults.1 "plain note\n--- not a header" (by decide)⟩

/-- C6 counterexample: the empty-column allocator returns
`Math.floor(now / 2)`, so two successive invocations 1ms apart (clock
strictly advancing) both return `500` for timestamps `1000` and `1001` —
the returned pair is not strictly increasing, refuting the claim as
stated. -/
theorem c6_counterexample :
    (1000 : ℤ) < 1001 ∧
      calculateSortValue [] [] 0 1000 = 500 ∧
      calculateSortValue [] [] 0 1001 = 500 ∧
      ¬ calculateSortValue [] [] 0 1000 < calculateSortValue [] [] 0 1001 := by
  decide

/-- C6 (amended): with both neighbour bounds absent the allocator
returns `Math.floor(now / 2)`, a key derived from the current time; two
successive such invocations return a non-decreasing pair whenever the
clock does not go backwards, and a strictly increasing pair when the
second timestamp is at least 2ms after the first. -/
theorem c6_empty_column_allocation (todos : List Todo) (m₁ m₂ : ℕ) (h : m₁ ≤ m₂) :
    calculateSortValue [] todos 0 (Int.ofNat m₁) = Int.ofNat (m₁ / 2) ∧
      calculateSortValue [] todos 0 (Int.ofNat m₁) ≤
        calculateSortValue [] todos 0 (Int.ofNat m₂) ∧
      (m₁ + 2 ≤ m₂ →
        calculateSortValue [] todos 0 (Int.ofNat m₁) <
          calculateSortValue [] todos 0 (Int.ofNat m₂)) := by
  have key : ∀ m : ℕ, calculateSortValue [] todos 0 (Int.ofNat m) = Int.ofNat (m / 2) := by
    intro m
    show Int.fdiv (0 + Int.ofNat m) 2 = _
    rw [zero_add]
    cases m with
    | zero => rfl
    | succ m' => rfl
  refine ⟨key m₁, ?_, ?_⟩
  · rw [key m₁, key m₂]
    exact Int.ofNat_le.mpr (Nat.div_le_div_right h)
  · intro h2
    rw [key m₁, key m₂]
    exact Int.ofNat_lt.mpr (by omega)

/-- Witness for C6 (amended) at concrete timestamps 4 and 10. -/
theorem c6_empty_column_allocation_witness :
    (4 : ℕ) ≤ 10 ∧
      calculateSortValue [] [] 0 (Int.ofNat 4) = Int.ofNat 2 ∧
      calculateSortValue [] [] 0 (Int.ofNat 4) ≤ calculateSortValue [] [] 0 (Int.ofNat 10) ∧
      ((4 : ℕ) + 2 ≤ 10 →
        calculateSortValue [] [] 0 (Int.ofNat 4) < calculateSortValue [] [] 0 (Int.ofNat 10)) :=
  ⟨by decide, c6_empty_column_allocation [] 4 10 (by decide)⟩

/-- C7: unknown tool handling — for every `TOOL_CALL` whose tool name is
not one of the six known tools, exactly one `TOOL_RESPONSE` with the
same `requestId` is posted back, carrying an error field rather than a
success result, and neither the store nor the in-memory task cache is
mutated. -/
theorem c7_unknown_tool (st : BridgeState) (requestId tool : String) (input : ToolCallInput)
    (h : tool ∉ knownTools) :
    handleToolCall st requestId tool input =
      (st, [⟨requestId, .errR ("Unknown tool: " ++ tool)⟩]) := by
  have h1 : ¬ tool = "list_tasks" := fun hc => h (by rw [hc]; decide)
  have h2 : ¬ tool = "get_task" := fun hc => h (by rw [hc]; decide)
  have h3 : ¬ tool = "create_task" := fun hc => h (by rw [hc]; decide)
  have h4 : ¬ tool = "update_task" := fun hc => h (by rw [hc]; decide)
  have h5 : ¬ tool = "move_task" := fun hc => h (by rw [hc]; decide)
  have h6 : ¬ tool = "delete_task" := fun hc => h (by rw [hc]; decide)
  rw [handleToolCall, if_neg h1, if_neg h2, if_neg h3, if_neg h4, if_neg h5, if_neg h6]

/-- Witness for C7 at the tool name `unknown_tool`. -/
theorem c7_unknown_tool_witness :
    "unknown_tool" ∉ knownTools ∧
      handleToolCall ⟨[], []⟩ "req-1" "unknown_tool" (inputWithId "x") =
        (⟨[], []⟩, [⟨"req-1", .errR "Unknown tool: unknown_tool"⟩]) :=
  ⟨by decide, c7_unknown_tool ⟨[], []⟩ "req-1" "unknown_tool" (inputWithId "x") (by decide)⟩

/-- C8: origin noninterference — a window message from any origin other
than the single allowed embed origin produces zero observable effects:
the state (task cache, token state) is returned unchanged and no
outbound message is posted, for every message type and every state. -/
theorem c8_origin_noninterference (exchange : ExchangeOutcome) (origin : String)
    (msg : InboundMsg) (st : AppState) (h : origin ≠ allowedOrigin) :
    processMessage exchange origin msg st = (st, []) := by
  rw [processMessage.eq_def, if_pos h]

/-- Witness for C8 at a concrete foreign origin and a `READY` message. -/
theorem c8_origin_noninterference_witness :
    ("https://evil.example" : String) ≠ allowedOrigin ∧
      processMessage (.fail "e") "https://evil.example" .ready
          ⟨⟨[], []⟩, ⟨some "tok", none, none, none, none, none⟩⟩ =
        (⟨⟨[], []⟩, ⟨some "tok", none, none, none, none, none⟩⟩, []) :=
  ⟨by decide,
    c8_origin_noninterference (.fail "e") "https://evil.example" .ready
      ⟨⟨[], []⟩, ⟨some "tok", none, none, none, none, none⟩⟩ (by decide)⟩

/-- C3 counterexample: dropping task `b` (sort 5) onto its own `todo`
column at its current position (drop index 1, between `a` with sort 0
and `c` with sort 20) recomputes the midpoint `Math.floor((0+20)/2)=10`,
which differs from 5, so `handleDrop` does issue a remote update —
refuting the claim that every same-position drop is detected as a no-op. -/
theorem c3_counterexample :
    dropDecision
        [⟨"a", "A", "", buildContent "todo" "medium" 0 "", []⟩,
         ⟨"b", "B", "", buildContent "todo" "medium" 5 "", []⟩,
         ⟨"c", "C", "", buildContent "todo" "medium" 20 "", []⟩]
        ⟨"b", "B", "", buildContent "todo" "medium" 5 "", []⟩ "todo" 1 123456 =
      some ("todo", 10) ∧
      (parseContent (buildContent "todo" "medium" 5 "")).status = "todo" ∧
      (parseContent (buildContent "todo" "medium" 5 "")).sort = 5 := by
  refine ⟨by decide, by decide, by decide⟩

/-- C3 (amended): a drop of a task onto its own current status column is
a no-op (no remote call, cache untouched) exactly when the recomputed
neighbour midpoint equals the task's current sort key; when the midpoint
differs, an update carrying the unchanged status and the new midpoint
sort key is issued. -/
theorem c3_same_position_drop (todos : List Todo) (dragged : Todo) (dropIndex : ℕ)
    (now : ℤ) :
    dropDecision todos dragged (parseContent dragged.content).status dropIndex now =
      (if calculateSortValue
            ((columnOf todos ((parseContent dragged.content).status)).filter
              (fun u => u.id != dragged.id)) todos dropIndex now =
          (parseContent dragged.content).sort
        then none
        else some ((parseContent dragged.content).status,
          calculateSortValue
            ((columnOf todos ((parseContent dragged.content).status)).filter
              (fun u => u.id != dragged.id)) todos dropIndex now)) := by
  simp only [dropDecision]
  by_cases h : calculateSortValue
      ((columnOf todos ((parseContent dragged.content).status)).filter
        (fun u => u.id != dragged.id)) todos dropIndex now =
      (parseContent dragged.content).sort
  · rw [if_pos ⟨trivial, h⟩, if_pos h]
  · rw [if_neg fun hc => h hc.2, if_neg h]

theorem length_filter_not_aux (l : List Todo) (p : Todo → Bool) :
    (l.filter p).length + (l.filter (fun u => !(p u))).length = l.length := by
  induction l with
  | nil => rfl
  | cons x xs ih =>
    by_cases h : p x
    · simp [List.filter_cons, h, ← ih]
      omega
    · simp [List.filter_cons, h, ← ih]
      omega

/-- C4 counterexample: with a single cached task whose parsed status is
`deleted`, every column, the visible-task list feeding the board-context
digest and the `list_tasks` tool are empty, yet the total task-count
display shows `this.todos.length = 1` — the deleted task is *not*
excluded from the total task-count display, refuting the claim as
stated. -/
theorem c4_counterexample :
    totalCount [⟨"d1", "Del", "", buildContent "deleted" "medium" 0 "gone", []⟩] = 1 ∧
      visibleTodos [⟨"d1", "Del", "", buildContent "deleted" "medium" 0 "gone", []⟩] = [] ∧
      columnOf [⟨"d1", "Del", "", buildContent "deleted" "medium" 0 "gone", []⟩] "todo" = [] ∧
      columnOf [⟨"d1", "Del", "", buildContent "deleted" "medium" 0 "gone", []⟩]
        "in-progress" = [] ∧
      columnOf [⟨"d1", "Del", "", buildContent "deleted" "medium" 0 "gone", []⟩] "done" = [] ∧
      listTasks [⟨"d1", "Del", "", buildContent "deleted" "medium" 0 "gone", []⟩] none = [] := by
  decide

/-- C4 (amended): every cached task whose parsed status is `deleted` is
excluded from the rendered columns (hence from the per-column counts and
from the reorder-neighbour lists, which are drawn from those columns),
from the visible-task list feeding the board-context digest, and from
the `list_tasks` tool result — but the total task-count display shows
the length of the whole cache, deleted tasks included. -/
theorem c4_deleted_excluded_except_total (todos : List Todo) (t : Todo) (ht : t ∈ todos)
    (hd : (parseContent t.content).status = "deleted") :
    (∀ s, t ∉ columnOf todos s) ∧
      t ∉ visibleTodos todos ∧
      (∀ e ∈ listTasks todos none, ∃ u, u ∈ visibleTodos todos ∧ e = entryOf u) ∧
      totalCount todos =
        (visibleTodos todos).length + (todos.filter (fun u => !(visibleB u))).length := by
  have hvis : visibleB t = false := by
    rw [visibleB, hd]
    decide
  refine ⟨?_, ?_, ?_, ?_⟩
  · intro s hmem
    rw [columnOf, mem_sortBySort, List.mem_filter] at hmem
    have hfalse := hmem.2
    simp [hvis] at hfalse
  · intro hmem
    rw [visibleTodos, List.mem_filter] at hmem
    have hfalse := hmem.2
    simp [visibleB, hd] at hfalse
  · intro e he
    have : e ∈ (visibleTodos todos).map entryOf := he
    obtain ⟨u, hu, he'⟩ := List.mem_map.mp this
    exact ⟨u, hu, he'.symm⟩
  · rw [totalCount, ← length_filter_not_aux todos visibleB]
    rfl

/-- Witness for C4 (amended): a two-task cache with one deleted task. -/
theorem c4_deleted_excluded_except_total_witness :
    (∀ s, (⟨"d1", "Del", "", buildContent "deleted" "medium" 0 "gone", []⟩ : Todo) ∉
        columnOf
          [⟨"v1", "Viz", "", buildContent "todo" "low" 1 "keep", []⟩,
           ⟨"d1", "Del", "", buildContent "deleted" "medium" 0 "gone", []⟩] s) ∧
      (⟨"d1", "Del", "", buildContent "deleted" "medium" 0 "gone", []⟩ : Todo) ∉
        visibleTodos
          [⟨"v1", "Viz", "", buildContent "todo" "low" 1 "keep", []⟩,
           ⟨"d1", "Del", "", buildContent "deleted" "medium" 0 "gone", []⟩] ∧
      (∀ e ∈ listTasks
          [⟨"v1", "Viz", "", buildContent "todo" "low" 1 "keep", []⟩,
           ⟨"d1", "Del", "", buildContent "deleted" "medium" 0 "gone", []⟩] none,
        ∃ u, u ∈ visibleTodos
            [⟨"v1", "Viz", "", buildContent "todo" "low" 1 "keep", []⟩,
             ⟨"d1", "Del", "", buildContent "deleted" "medium" 0 "gone", []⟩] ∧
          e = entryOf u) ∧
      totalCount
          [⟨"v1", "Viz", "", buildContent "todo" "low" 1 "keep", []⟩,
           ⟨"d1", "Del", "", buildContent "deleted" "medium" 0 "gone", []⟩] =
        (visibleTodos
          [⟨"v1", "Viz", "", buildContent "todo" "low" 1 "keep", []⟩,
           ⟨"d1", "Del", "", buildContent "deleted" "medium" 0 "gone", []⟩]).length +
        ([⟨"v1", "Viz", "", buildContent "todo" "low" 1 "keep", []⟩,
          ⟨"d1", "Del", "", buildContent "deleted" "medium" 0 "gone", []⟩].filter
            (fun u => !(visibleB u))).length :=
  c4_deleted_excluded_except_total
    [⟨"v1", "Viz", "", buildContent "todo" "low" 1 "keep", []⟩,
     ⟨"d1", "Del", "", buildContent "deleted" "medium" 0 "gone", []⟩]
    ⟨"d1", "Del", "", buildContent "deleted" "medium" 0 "gone", []⟩
    (by decide) (by decide)

/-- C9 counterexample: with an authorization code in the URL, a stored
PKCE verifier, and a failing token exchange, `handleCallback` returns
`false` through its catch block and the verifier is *still present* in
session storage — refuting the claim that the verifier is removed
regardless of the exchange outcome. -/
theorem c9_counterexample :
    (handleCallback ⟨none, none, none, some "verifier", none, some "authcode"⟩
        (.fail "exchange failed")).1.sessionVerifier = some "verifier" ∧
      (handleCallback ⟨none, none, none, some "verifier", none, some "authcode"⟩
        (.fail "exchange failed")).2 = false := by
  decide

/-- C9 (amended): when an authorization code is present in the URL and a
PKCE verifier is present in session storage, a successful token exchange
removes the verifier (and clears the code) before `handleCallback`
returns `true`; a failed exchange leaves the state — the verifier
included — untouched and returns `false`. -/
theorem c9_verifier_discard (st : AuthState) (code v : String) (h0 : code ≠ "")
    (hc : st.urlCode = some code) (hv : st.sessionVerifier = some v) :
    (∀ t, (handleCallback st (.ok t)).1.sessionVerifier = none ∧
      (handleCallback st (.ok t)).1.urlCode = none ∧
      (handleCallback st (.ok t)).2 = true) ∧
      (∀ e, handleCallback st (.fail e) = (st, false)) := by
  constructor
  · intro t
    simp only [handleCallback, hc, hv, if_neg h0]
    exact ⟨trivial, trivial, trivial⟩
  · intro e
    simp only [handleCallback, hc, hv, if_neg h0]

/-- Witness for C9 (amended) at a concrete state. -/
theorem c9_verifier_discard_witness :
    (∀ t, (handleCallback ⟨none, none, none, some "v", none, some "c"⟩
        (.ok t)).1.sessionVerifier = none ∧
      (handleCallback ⟨none, none, none, some "v", none, some "c"⟩
        (.ok t)).1.urlCode = none ∧
      (handleCallback ⟨none, none, none, some "v", none, some "c"⟩ (.ok t)).2 = true) ∧
      (∀ e, handleCallback ⟨none, none, none, some "v", none, some "c"⟩ (.fail e) =
        (⟨none, none, none, some "v", none, some "c"⟩, false)) :=
  c9_verifier_discard ⟨none, none, none, some "v", none, some "c"⟩ "c" "v" (by decide) rfl rfl

/-- C10: user-info decoding is total — an absent (or empty, hence falsy)
access token yields `null`; a token without exactly three dot-separated
segments yields `null`; a token whose middle segment the base64url/JSON
decoder rejects yields `null`; and for a well-formed token the result's
name falls back from the `name` claim through `preferred_username` to
the literal `User` (empty strings are falsy), with the email defaulting
to the empty string. -/
theorem c10_getUserInfo_total (d : String → Option JwtPayload) :
    getUserInfo d none = none ∧
      getUserInfo d (some "") = none ∧
      (∀ tok : String, tok ≠ "" → (splitOnChar '.' tok.data).length ≠ 3 →
        getUserInfo d (some tok) = none) ∧
      (∀ tok : String, tok ≠ "" → (splitOnChar '.' tok.data).length = 3 →
        d ⟨(splitOnChar '.' tok.data).getD 1 []⟩ = none →
        getUserInfo d (some tok) = none) ∧
      (∀ (tok : String) (p : JwtPayload), tok ≠ "" →
        (splitOnChar '.' tok.data).length = 3 →
        d ⟨(splitOnChar '.' tok.data).getD 1 []⟩ = some p →
        getUserInfo d (some tok) =
          some ⟨jsOr p.name (jsOr p.preferred_username "User"), jsOr p.email "", p.sub⟩) := by
  refine ⟨rfl, rfl, ?_, ?_, ?_⟩
  · intro tok h0 h3
    simp only [getUserInfo]
    rw [if_neg h0, if_neg h3]
  · intro tok h0 h3 hd
    simp only [getUserInfo]
    rw [if_neg h0, if_pos h3, hd]
  · intro tok p h0 h3 hd
    simp only [getUserInfo]
    rw [if_neg h0, if_pos h3, hd]

/-- Witness for C10 at concrete tokens and a concrete decoder. -/
theorem c10_getUserInfo_total_witness :
    getUserInfo
        (fun s => if s = "pay" then some ⟨none, some "alice", some "", some "u1"⟩ else none)
        none = none ∧
      getUserInfo
        (fun s => if s = "pay" then some ⟨none, some "alice", some "", some "u1"⟩ else none)
        (some "onlyonesegment") = none ∧
      getUserInfo
        (fun s => if s = "pay" then some ⟨none, some "alice", some "", some "u1"⟩ else none)
        (some "head.bad.sig") = none ∧
      getUserInfo
        (fun s => if s = "pay" then some ⟨none, some "alice", some "", some "u1"⟩ else none)
        (some "head.pay.sig") = some ⟨"alice", "", some "u1"⟩ :=
  ⟨(c10_getUserInfo_total _).1,
    (c10_getUserInfo_total _).2.2.1 "onlyonesegment" (by decide) (by decide),
    (c10_getUserInfo_total _).2.2.2.1 "head.bad.sig" (by decide) (by decide) (by decide),
    (c10_getUserInfo_total _).2.2.2.2 "head.pay.sig" ⟨none, some "alice", some "", some "u1"⟩
      (by decide) (by decide) (by decide)⟩

/-- The per-fragment effect of the soft delete on the store. -/
def softDeleteMap (t : Todo) : Todo → Todo :=
  fun u => if u.id == t.id
    then applyUpdate u { deleteFieldsOf t with status := some "deleted" } else u

/-- The soft-deleted fragment itself. -/
def softDeleteApply (t : Todo) : Todo :=
  applyUpdate t { deleteFieldsOf t with status := some "deleted" }

theorem findTodo_some (l : List Todo) (i : String) :
    findTodo l (some i) = l.find? (fun u => u.id == i) := rfl

theorem softDeleteMap_id (t u : Todo) : (softDeleteMap t u).id = u.id := by
  rw [softDeleteMap]
  by_cases h : (u.id == t.id) = true
  · rw [if_pos h]
    rfl
  · rw [if_neg h]

theorem softDeleteMap_self (t : Todo) : softDeleteMap t t = softDeleteApply t := by
  rw [softDeleteMap, softDeleteApply, if_pos (by simp : (t.id == t.id) = true)]

theorem deleteTodo_as_map (store : List Todo) (t : Todo) :
    deleteTodo store t.id (deleteFieldsOf t) = store.map (softDeleteMap t) := rfl

theorem softDeleteApply_status (t : Todo) :
    (parseContent (softDeleteApply t).content).status = "deleted" := by
  show (parseContent
    (buildContentF { deleteFieldsOf t with status := some "deleted" })).status = "deleted"
  apply parseContent_buildContentF_deleted
  · rfl
  · intro s hs
    have hw := parseContent_wf t.content
    have hps : s = (parseContent t.content).priority := by
      have heq : ({ deleteFieldsOf t with status := some "deleted" } : TodoFields).priority =
          some ((parseContent t.content).priority) := rfl
      rw [heq] at hs
      exact (Option.some_inj.mp hs).symm
    rw [hps]
    exact hw.2.2.1

/-- C2: soft delete — the `delete_task` tool (and the delete button,
which calls the same `deleteTodo`) performs an update that sets the
task's parsed status to `deleted`: afterwards the store still holds the
same number of fragments, the task is still fetchable by id (a
`get_task` call succeeds and leaves the state unchanged), its parsed
status is `deleted`, exactly one success `TOOL_RESPONSE` is posted, and
the task is excluded from every rendered column and hence from the
column counts. -/
theorem c2_soft_delete (store : List Todo) (rid rid2 id : String) (t : Todo)
    (ht : findTodo store (some id) = some t) :
    ∃ t' : Todo,
      (handleToolCall ⟨store, store⟩ rid "delete_task" (inputWithId id)).2 =
        [⟨rid, .okR ("Task \"" ++ t.title ++ "\" deleted")⟩] ∧
      (handleToolCall ⟨store, store⟩ rid "delete_task" (inputWithId id)).1.store.length =
        store.length ∧
      findTodo (handleToolCall ⟨store, store⟩ rid "delete_task" (inputWithId id)).1.cache
          (some id) = some t' ∧
      (parseContent t'.content).status = "deleted" ∧
      handleToolCall (handleToolCall ⟨store, store⟩ rid "delete_task" (inputWithId id)).1
          rid2 "get_task" (inputWithId id) =
        ((handleToolCall ⟨store, store⟩ rid "delete_task" (inputWithId id)).1,
          [⟨rid2, .taskR (entryOf t') (parseContent t'.content).body⟩]) ∧
      (∀ s, t' ∉ columnOf
        (handleToolCall ⟨store, store⟩ rid "delete_task" (inputWithId id)).1.cache s) := by
  have hid : (inputWithId id).id = some id := rfl
  have hstep : handleToolCall ⟨store, store⟩ rid "delete_task" (inputWithId id) =
      (⟨deleteTodo store t.id (deleteFieldsOf t), deleteTodo store t.id (deleteFieldsOf t)⟩,
        [⟨rid, .okR ("Task \"" ++ t.title ++ "\" deleted")⟩]) := by
    rw [handleToolCall, if_neg (by decide), if_neg (by decide), if_neg (by decide),
      if_neg (by decide), if_neg (by decide), if_pos rfl]
    rw [show (⟨store, store⟩ : BridgeState).cache = store from rfl, hid, ht]
  have hfind : findTodo (deleteTodo store t.id (deleteFieldsOf t)) (some id) =
      some (softDeleteApply t) := by
    rw [deleteTodo_as_map, findTodo_some,
      find?_map_id_preserving (softDeleteMap t) (softDeleteMap_id t) id store]
    rw [show store.find? (fun u => u.id == id) = some t from ht]
    show some (softDeleteMap t t) = some (softDeleteApply t)
    rw [softDeleteMap_self]
  have hstatus := softDeleteApply_status t
  refine ⟨softDeleteApply t, ?_, ?_, ?_, hstatus, ?_, ?_⟩
  · rw [hstep]
  · rw [hstep]
    show (deleteTodo store t.id (deleteFieldsOf t)).length = store.length
    rw [deleteTodo_as_map, List.length_map]
  · rw [hstep]
    exact hfind
  · rw [hstep]
    show handleToolCall ⟨deleteTodo store t.id (deleteFieldsOf t),
        deleteTodo store t.id (deleteFieldsOf t)⟩ rid2 "get_task" (inputWithId id) = _
    rw [handleToolCall, if_neg (by decide), if_pos rfl]
    rw [show (⟨deleteTodo store t.id (deleteFieldsOf t),
      deleteTodo store t.id (deleteFieldsOf t)⟩ : BridgeState).cache =
        deleteTodo store t.id (deleteFieldsOf t) from rfl, hid, hfind]
  · intro s hmem
    rw [hstep] at hmem
    rw [columnOf, mem_sortBySort, List.mem_filter] at hmem
    have hfalse := hmem.2
    simp [visibleB, hstatus] at hfalse

/-- Witness for C2 at a concrete one-task store. -/
theorem c2_soft_delete_witness :
    ∃ t' : Todo,
      (handleToolCall
          (⟨[⟨"x1", "Task one", "", buildContent "todo" "low" 3 "body text", ["kloddin"]⟩],
            [⟨"x1", "Task one", "", buildContent "todo" "low" 3 "body text", ["kloddin"]⟩]⟩ :
            BridgeState)
          "r1" "delete_task" (inputWithId "x1")).2 =
        [⟨"r1", .okR ("Task \"" ++ "Task one" ++ "\" deleted")⟩] ∧
      (handleToolCall
          (⟨[⟨"x1", "Task one", "", buildContent "todo" "low" 3 "body text", ["kloddin"]⟩],
            [⟨"x1", "Task one", "", buildContent "todo" "low" 3 "body text", ["kloddin"]⟩]⟩ :
            BridgeState)
          "r1" "delete_task" (inputWithId "x1")).1.store.length =
        ([⟨"x1", "Task one", "", buildContent "todo" "low" 3 "body text", ["kloddin"]⟩] :
          List Todo).length ∧
      findTodo (handleToolCall
          (⟨[⟨"x1", "Task one", "", buildContent "todo" "low" 3 "body text", ["kloddin"]⟩],
            [⟨"x1", "Task one", "", buildContent "todo" "low" 3 "body text", ["kloddin"]⟩]⟩ :
            BridgeState)
          "r1" "delete_task" (inputWithId "x1")).1.cache (some "x1") = some t' ∧
      (parseContent t'.content).status = "deleted" ∧
      handleToolCall (handleToolCall
          (⟨[⟨"x1", "Task one", "", buildContent "todo" "low" 3 "body text", ["kloddin"]⟩],
            [⟨"x1", "Task one", "", buildContent "todo" "low" 3 "body text", ["kloddin"]⟩]⟩ :
            BridgeState)
          "r1" "delete_task" (inputWithId "x1")).1 "r2" "get_task" (inputWithId "x1") =
        ((handleToolCall
          (⟨[⟨"x1", "Task one", "", buildContent "todo" "low" 3 "body text", ["kloddin"]⟩],
            [⟨"x1", "Task one", "", buildContent "todo" "low" 3 "body text", ["kloddin"]⟩]⟩ :
            BridgeState)
          "r1" "delete_task" (inputWithId "x1")).1,
          [⟨"r2", .taskR (entryOf t') (parseContent t'.content).body⟩]) ∧
      (∀ s, t' ∉ columnOf (handleToolCall
          (⟨[⟨"x1", "Task one", "", buildContent "todo" "low" 3 "body text", ["kloddin"]⟩],
            [⟨"x1", "Task one", "", buildContent "todo" "low" 3 "body text", ["kloddin"]⟩]⟩ :
            BridgeState)
          "r1" "delete_task" (inputWithId "x1")).1.cache s) :=
  c2_soft_delete
    [⟨"x1", "Task one", "", buildContent "todo" "low" 3 "body text", ["kloddin"]⟩]
    "r1" "r2" "x1"
    ⟨"x1", "Task one", "", buildContent "todo" "low" 3 "body text", ["kloddin"]⟩
    (by decide)

end Kanban
